import Mathlib

/-!
Shallow embedding of the wallet deposit/withdraw application
(`wallets/models.py`, `wallets/services.py`, `wallets/tasks.py`).

Wallets, transactions and scheduled withdrawals are rows in lists; the
Django ORM operations used by the source (`save`, `create`,
`filter(...).update(...)` with row counts, `filter(...).first()`,
`get`) become list operations.  Balances and amounts are integers
(`Int`, so that the non-negativity enforced by
`PositiveBigIntegerField` can be proved rather than assumed); times are
`Nat` timestamps in seconds, with minute flooring for the scheduler
window.  The external settlement provider (`request_third_party_deposit`,
an opaque external collaborator) is a parameter: its outcome is either a
response carrying a `data` string (success iff `data = "success"`) or a
raised exception message, exactly the two cases `process_single_withdrawal`
distinguishes.
-/

namespace WalletApp

/-- Choices for `Transaction.type`: deposit or withdraw. -/
inductive TxType
  | deposit
  | withdraw
deriving DecidableEq, Repr

/-- A `Wallet` row: pk, `balance`, `freeze_amount`. -/
structure Wallet where
  id : Nat
  balance : Int
  freeze_amount : Int
deriving DecidableEq, Repr

/-- A `Transaction` row: pk, owning wallet pk, `amount`, `type`. -/
structure Txn where
  id : Nat
  wallet : Nat
  amount : Int
  type : TxType
deriving DecidableEq, Repr

/-- Status choices for `ScheduledWithdrawal.status`. -/
inductive WStatus
  | pending
  | processing
  | completed
  | failed
deriving DecidableEq, Repr

/-- A `ScheduledWithdrawal` row. -/
structure ScheduledWithdrawal where
  id : Nat
  wallet : Nat
  amount : Int
  scheduled_for : Nat
  status : WStatus
  transaction : Option Nat
  error_message : Option String
deriving DecidableEq, Repr

/-- The ledger store: all rows plus fresh-pk counters. -/
structure LedgerState where
  wallets : List Wallet
  transactions : List Txn
  withdrawals : List ScheduledWithdrawal
  nextTxId : Nat
  nextWId : Nat
  nextWalletId : Nat
deriving DecidableEq, Repr

/-- Errors surfaced synchronously by the wallet service
(`ValueError` / `DoesNotExist` in the source). -/
inductive ServiceError
  | validation (msg : String)
  | notFound
deriving DecidableEq, Repr

/-- Model of `Wallet.objects.get(uuid=...)`: lookup of a wallet row by id. -/
def findWallet (ws : List Wallet) (i : Nat) : Option Wallet :=
  ws.find? (fun w => decide (w.id = i))

/-- Lookup of a withdrawal row by id. -/
def findWithdrawal (ws : List ScheduledWithdrawal) (i : Nat) :
    Option ScheduledWithdrawal :=
  ws.find? (fun w => decide (w.id = i))

/-- Model of `wallet.save()`: write back the row with this pk. -/
def saveWallet (ws : List Wallet) (w : Wallet) : List Wallet :=
  ws.map (fun x => if x.id = w.id then w else x)

/-- Model of `withdrawal.save()`: write back the row with this pk. -/
def saveWithdrawal (ws : List ScheduledWithdrawal)
    (w : ScheduledWithdrawal) : List ScheduledWithdrawal :=
  ws.map (fun x => if x.id = w.id then w else x)

/-- Model of `Wallet.objects.filter(id=i, balance__gte=a).update(balance=F('balance') - a)`:
the rows updated. -/
def debitUpdate (ws : List Wallet) (i : Nat) (a : Int) : List Wallet :=
  ws.map (fun w =>
    if w.id = i ∧ a ≤ w.balance then { w with balance := w.balance - a } else w)

/-- The row count returned by the conditional debit update. -/
def debitCount (ws : List Wallet) (i : Nat) (a : Int) : Nat :=
  ws.countP (fun w => decide (w.id = i ∧ a ≤ w.balance))

/-- Model of `Wallet.objects.filter(id=i).update(balance=F('balance') + a)`: the refund. -/
def refundUpdate (ws : List Wallet) (i : Nat) (a : Int) : List Wallet :=
  ws.map (fun w => if w.id = i then { w with balance := w.balance + a } else w)

/-- Model of `deposit_to_wallet` (`services.py`): reject `amount <= 0`, look up the
wallet (NotFound if absent), increment its balance and append one deposit
transaction, all in one atomic block. -/
def deposit_to_wallet (s : LedgerState) (wallet_id : Nat) (amount : Int) :
    Except ServiceError (LedgerState × Txn) :=
  if amount ≤ 0 then
    .error (.validation "Amount must be positive")
  else
    match findWallet s.wallets wallet_id with
    | none => .error .notFound
    | some wallet =>
      let wallet2 := { wallet with balance := wallet.balance + amount }
      let txn : Txn :=
        { id := s.nextTxId, wallet := wallet.id, amount := amount,
          type := TxType.deposit }
      .ok ({ s with
              wallets := saveWallet s.wallets wallet2,
              transactions := s.transactions ++ [txn],
              nextTxId := s.nextTxId + 1 }, txn)

/-- Model of `create_withdraw_request` (`services.py`): reject `amount <= 0` and a
non-future `scheduled_for`, look up the wallet, insert a pending
`ScheduledWithdrawal`.  The wallet row is not touched. -/
def create_withdraw_request (s : LedgerState) (wallet_id : Nat)
    (amount : Int) (scheduled_for now : Nat) :
    Except ServiceError (LedgerState × ScheduledWithdrawal) :=
  if amount ≤ 0 then
    .error (.validation "Amount must be positive")
  else if scheduled_for ≤ now then
    .error (.validation "Scheduled time must be in the future")
  else
    match findWallet s.wallets wallet_id with
    | none => .error .notFound
    | some wallet =>
      let wr : ScheduledWithdrawal :=
        { id := s.nextWId, wallet := wallet.id, amount := amount,
          scheduled_for := scheduled_for, status := WStatus.pending,
          transaction := none, error_message := none }
      .ok ({ s with
              withdrawals := s.withdrawals ++ [wr],
              nextWId := s.nextWId + 1 }, wr)

/-- Wallet creation (`CreateWalletView`): a fresh row with the model
defaults `balance = 0`, `freeze_amount = 0`. -/
def create_wallet (s : LedgerState) : LedgerState × Wallet :=
  let w : Wallet := { id := s.nextWalletId, balance := 0, freeze_amount := 0 }
  ({ s with wallets := s.wallets ++ [w], nextWalletId := s.nextWalletId + 1 }, w)

/-- Outcome of the external settlement call in `process_single_withdrawal`:
either `request_third_party_deposit()` returns a response whose `data`
field is inspected, or the call raises. -/
inductive SettlementOutcome
  | response (data : String)
  | raised (msg : String)

/-- Success flag `bank_success = response.get('data') == 'success'`; an
exception means no success. -/
def bankSuccess : SettlementOutcome → Bool
  | .response d => d = "success"
  | .raised _ => false

/-- The `error_message` recorded for a non-success settlement outcome. -/
def settlementErrorMessage : SettlementOutcome → Option String
  | .response d =>
      if d = "success" then none
      else some ("Bank rejected the request. Response: " ++ d)
  | .raised m =>
      some ("Unexpected error: " ++ m ++ " - withdrawal amount refunded")

/-- Model of `process_single_withdrawal` (`tasks.py`): re-fetch the withdrawal in
`processing` status (no-op if absent); conditionally debit the wallet
(`failed` with "Insufficient balance at execution time" when 0 rows
matched); call settlement; on success append one withdraw transaction and
complete; otherwise refund the wallet and fail with the recorded message. -/
def process_single_withdrawal (s : LedgerState) (withdrawal_id : Nat)
    (settle : SettlementOutcome) : LedgerState :=
  match s.withdrawals.find?
      (fun w => decide (w.id = withdrawal_id ∧ w.status = WStatus.processing)) with
  | none => s
  | some withdrawal =>
    if debitCount s.wallets withdrawal.wallet withdrawal.amount = 0 then
      { s with
          wallets := debitUpdate s.wallets withdrawal.wallet withdrawal.amount,
          withdrawals := saveWithdrawal s.withdrawals
            { withdrawal with
                status := WStatus.failed,
                error_message := some "Insufficient balance at execution time" } }
    else if bankSuccess settle then
      { s with
          wallets := debitUpdate s.wallets withdrawal.wallet withdrawal.amount,
          transactions := s.transactions ++
            [{ id := s.nextTxId, wallet := withdrawal.wallet,
               amount := withdrawal.amount, type := TxType.withdraw }],
          nextTxId := s.nextTxId + 1,
          withdrawals := saveWithdrawal s.withdrawals
            { withdrawal with
                status := WStatus.completed,
                transaction := some s.nextTxId } }
    else
      { s with
          wallets := refundUpdate
            (debitUpdate s.wallets withdrawal.wallet withdrawal.amount)
            withdrawal.wallet withdrawal.amount,
          withdrawals := saveWithdrawal s.withdrawals
            { withdrawal with
                status := WStatus.failed,
                error_message := settlementErrorMessage settle } }

/-- Model of `now.replace(second=0, microsecond=0)`: floor a timestamp to
its minute. -/
def floorToMinute (t : Nat) : Nat := t - t % 60

/-- Membership in the scheduler's closed claim window
`[current_minute_start, next_minute_start]`. -/
def inWindow (now : Nat) (w : ScheduledWithdrawal) : Prop :=
  floorToMinute now ≤ w.scheduled_for ∧ w.scheduled_for ≤ floorToMinute now + 60

instance (now : Nat) (w : ScheduledWithdrawal) : Decidable (inWindow now w) :=
  inferInstanceAs (Decidable (_ ∧ _))

/-- The predicate of the scheduler's claim query: `status = pending` and
`scheduled_for` within the current minute window. -/
def isDue (now : Nat) (w : ScheduledWithdrawal) : Prop :=
  w.status = WStatus.pending ∧ inWindow now w

instance (now : Nat) (w : ScheduledWithdrawal) : Decidable (isDue now w) :=
  inferInstanceAs (Decidable (_ ∧ _))

/-- Model of `withdrawal_ids = list(due_withdrawals.values_list('id', flat=True))`. -/
def dueIds (s : LedgerState) (now : Nat) : List Nat :=
  (s.withdrawals.filter (fun w => decide (isDue now w))).map (fun w => w.id)

/-- Model of `due_withdrawals.update(status=PROCESSING)`: bulk-transition
every row matched by the claim query. -/
def markProcessing (s : LedgerState) (now : Nat) : LedgerState :=
  { s with
      withdrawals := s.withdrawals.map (fun w =>
        if isDue now w then { w with status := WStatus.processing } else w) }

/-- Model of `process_scheduled_withdrawals` (`tasks.py`): claim the due pending
rows of the current minute window atomically, then hand each claimed id
to `process_single_withdrawal` sequentially; exit early when none are due. -/
def process_scheduled_withdrawals (s : LedgerState) (now : Nat)
    (settle : Nat → SettlementOutcome) : LedgerState :=
  let ids := dueIds s now
  if ids = [] then s
  else
    ids.foldl (fun st i => process_single_withdrawal st i (settle i))
      (markProcessing s now)

/-- One client-visible or timer-driven operation on the store. -/
inductive Op
  | createWallet
  | deposit (wallet_id : Nat) (amount : Int)
  | schedule (wallet_id : Nat) (amount : Int) (scheduled_for now : Nat)
  | sweep (now : Nat) (settle : Nat → SettlementOutcome)

/-- Apply one operation; a rejected service call leaves the store as it
was (the source raises before mutating, inside an atomic block). -/
def applyOp (s : LedgerState) : Op → LedgerState
  | .createWallet => (create_wallet s).1
  | .deposit w a =>
    match deposit_to_wallet s w a with
    | .ok (s2, _) => s2
    | .error _ => s
  | .schedule w a t now =>
    match create_withdraw_request s w a t now with
    | .ok (s2, _) => s2
    | .error _ => s
  | .sweep now settle => process_scheduled_withdrawals s now settle

/-- The empty ledger. -/
def initState : LedgerState :=
  { wallets := [], transactions := [], withdrawals := [],
    nextTxId := 0, nextWId := 0, nextWalletId := 0 }

/-- Run a finite trace of operations from the empty ledger. -/
def run (ops : List Op) : LedgerState := ops.foldl applyOp initState

/-- Sum of all wallet balances. -/
def balanceTotal (s : LedgerState) : Int :=
  (s.wallets.map (fun w => w.balance)).sum

/-- Sum of the amounts of all transactions of one type. -/
def txTotal (ty : TxType) (s : LedgerState) : Int :=
  ((s.transactions.filter (fun t => decide (t.type = ty))).map
    (fun t => t.amount)).sum

/-- Money conservation: deposits minus withdrawals equals total balance. -/
def conserved (s : LedgerState) : Prop :=
  txTotal TxType.deposit s - txTotal TxType.withdraw s = balanceTotal s

instance (s : LedgerState) : Decidable (conserved s) :=
  inferInstanceAs (Decidable (_ = _))

/-! ### Generic list helpers

Row updates in the embedding are `List.map` of functions that keep the
primary key; lookups are `List.find?` on the key.  The lemmas below relate
the two. -/

theorem find?_map_comm {α : Type} (idf : α → Nat) (g : α → α)
    (hg : ∀ x, idf (g x) = idf x) (i : Nat) :
    ∀ ws : List α,
      (ws.map g).find? (fun x => decide (idf x = i)) =
        (ws.find? (fun x => decide (idf x = i))).map g := by
  intro ws
  induction ws with
  | nil => simp
  | cons x t ih =>
    by_cases hx : idf x = i
    · simp [List.find?_cons, hg, hx]
    · simp [List.find?_cons, hg, hx, ih]

theorem find?_isSome_of_mem {α : Type} (idf : α → Nat) (w : α) :
    ∀ ws : List α, w ∈ ws →
      ∃ v, ws.find? (fun x => decide (idf x = idf w)) = some v ∧ idf v = idf w := by
  intro ws
  induction ws with
  | nil => intro h; cases h
  | cons x t ih =>
    intro hmem
    by_cases hx : idf x = idf w
    · exact ⟨x, by simp [List.find?_cons, hx], hx⟩
    · rcases List.mem_cons.mp hmem with hmem | hmem
      · exact absurd rfl (hmem ▸ hx)
      · rcases ih hmem with ⟨v, hv, hvi⟩
        exact ⟨v, by simp [List.find?_cons, hx, hv], hvi⟩

theorem find?_mem_unique {α : Type} (idf : α → Nat) (w : α) :
    ∀ ws : List α, (ws.map idf).Nodup → w ∈ ws →
      ws.find? (fun x => decide (idf x = idf w)) = some w := by
  intro ws
  induction ws with
  | nil => intro _ h; cases h
  | cons x t ih =>
    intro hnd hmem
    simp only [List.map_cons, List.nodup_cons] at hnd
    rcases List.mem_cons.mp hmem with hmem | hmem
    · subst hmem; simp [List.find?_cons]
    · by_cases hx : idf x = idf w
      · exact absurd (hx ▸ List.mem_map_of_mem idf hmem) hnd.1
      · simp [List.find?_cons, hx, ih hnd.2 hmem]

theorem countP_le_one_of_nodup {α : Type} (idf : α → Nat) {ws : List α}
    (hnd : (ws.map idf).Nodup) (i : Nat) :
    ws.countP (fun x => decide (idf x = i)) ≤ 1 := by
  induction ws with
  | nil => simp
  | cons x t ih =>
    simp only [List.map_cons, List.nodup_cons] at hnd
    by_cases hx : idf x = i
    · have ht : t.countP (fun x => decide (idf x = i)) = 0 := by
        rw [List.countP_eq_zero]
        intro y hy
        simp only [decide_eq_true_eq]
        intro hyi
        exact hnd.1 (hx ▸ hyi ▸ List.mem_map_of_mem idf hy)
      simp [List.countP_cons, hx, ht]
    · simpa [List.countP_cons, hx] using ih hnd.2

theorem countP_pos_of_find? {α : Type} (p : α → Bool) {w : α} :
    ∀ ws : List α, ws.find? p = some w → 1 ≤ ws.countP p := by
  intro ws
  induction ws with
  | nil => intro h; simp at h
  | cons x t ih =>
    intro h
    by_cases hx : p x
    · simp [List.countP_cons, hx]
    · rw [List.find?_cons_of_neg _ hx] at h
      have := ih h
      simp only [List.countP_cons, hx]
      omega

theorem map_id_of_countP_eq_zero {α : Type} (p : α → Prop) [DecidablePred p]
    (g : α → α) {ws : List α}
    (h : ws.countP (fun x => decide (p x)) = 0) :
    (ws.map fun x => if p x then g x else x) = ws := by
  rw [List.countP_eq_zero] at h
  induction ws with
  | nil => rfl
  | cons x t ih =>
    have hx : ¬ p x := by simpa using h x (by simp)
    simp only [List.map_cons, if_neg hx]
    rw [ih (fun y hy => h y (by simp [hy]))]

/-! ### Claim theorems: wallet service -/

/-- C6.  `deposit_to_wallet`: a non-positive amount is rejected with a
validation error and leaves the store unchanged; a positive amount on a
missing wallet fails NotFound and leaves the store unchanged; a positive
amount on an existing wallet increments that wallet's balance by exactly
the amount, leaves all other wallets in place, appends exactly one
deposit transaction of that amount, and touches no withdrawals. -/
theorem deposit_correct (s : LedgerState) (i : Nat) (a : Int) :
    (a ≤ 0 →
      deposit_to_wallet s i a =
        Except.error (ServiceError.validation "Amount must be positive") ∧
      applyOp s (Op.deposit i a) = s) ∧
    (0 < a → findWallet s.wallets i = none →
      deposit_to_wallet s i a = Except.error ServiceError.notFound ∧
      applyOp s (Op.deposit i a) = s) ∧
    (∀ w, 0 < a → findWallet s.wallets i = some w →
      ∃ s2 txn, deposit_to_wallet s i a = Except.ok (s2, txn) ∧
        findWallet s2.wallets i = some { w with balance := w.balance + a } ∧
        (∀ x ∈ s.wallets, x.id ≠ i → x ∈ s2.wallets) ∧
        s2.transactions = s.transactions ++ [txn] ∧
        txn = { id := s.nextTxId, wallet := w.id, amount := a,
                type := TxType.deposit } ∧
        s2.withdrawals = s.withdrawals) := by
  refine ⟨fun hle => ?_, fun hpos hnone => ?_, fun w hpos hsome => ?_⟩
  · have hdep : deposit_to_wallet s i a =
        Except.error (ServiceError.validation "Amount must be positive") := by
      unfold deposit_to_wallet
      rw [if_pos hle]
    exact ⟨hdep, by simp [applyOp, hdep]⟩
  · have hdep : deposit_to_wallet s i a = Except.error ServiceError.notFound := by
      unfold deposit_to_wallet
      rw [if_neg (by omega), hnone]
    exact ⟨hdep, by simp [applyOp, hdep]⟩
  · have hid : w.id = i := by
      have := List.find?_some hsome
      simpa using this
    have hdep : deposit_to_wallet s i a =
        Except.ok ({ s with
            wallets := saveWallet s.wallets { w with balance := w.balance + a },
            transactions := s.transactions ++
              [{ id := s.nextTxId, wallet := w.id, amount := a,
                 type := TxType.deposit }],
            nextTxId := s.nextTxId + 1 },
          { id := s.nextTxId, wallet := w.id, amount := a,
            type := TxType.deposit }) := by
      unfold deposit_to_wallet
      rw [if_neg (by omega), hsome]
    refine ⟨_, _, hdep, ?_, ?_, rfl, rfl, rfl⟩
    · show findWallet (saveWallet s.wallets { w with balance := w.balance + a })
        i = _
      unfold findWallet saveWallet
      rw [show (fun x : Wallet =>
            if x.id = ({ w with balance := w.balance + a } : Wallet).id
            then { w with balance := w.balance + a } else x) =
          (fun x : Wallet => if x.id = w.id
            then { w with balance := w.balance + a } else x) from rfl]
      rw [find?_map_comm Wallet.id
        (fun x : Wallet => if x.id = w.id
          then { w with balance := w.balance + a } else x)
        (fun x => by by_cases hx : x.id = w.id <;> simp [hx]) i s.wallets]
      unfold findWallet at hsome
      rw [hsome]
      simp [hid]
    · intro x hx hxi
      have hgx : (if x.id = ({ w with balance := w.balance + a } : Wallet).id
          then { w with balance := w.balance + a } else x) = x := by
        rw [if_neg (by simpa [hid] using hxi)]
      exact List.mem_map.mpr ⟨x, hx, hgx⟩

/-- A concrete one-wallet store used by witnesses: wallet 7 holding 10. -/
def wStore : LedgerState :=
  { wallets := [{ id := 7, balance := 10, freeze_amount := 0 }],
    transactions := [], withdrawals := [],
    nextTxId := 0, nextWId := 0, nextWalletId := 8 }

/-- Witness for C6 at a concrete store: deposit of 5 into wallet 7. -/
theorem deposit_correct_witness :
    ∃ s2 txn, deposit_to_wallet wStore 7 5 = Except.ok (s2, txn) ∧
      findWallet s2.wallets 7 = some { id := 7, balance := 15, freeze_amount := 0 } ∧
      (∀ x ∈ wStore.wallets, x.id ≠ 7 → x ∈ s2.wallets) ∧
      s2.transactions = wStore.transactions ++ [txn] ∧
      txn = { id := 0, wallet := 7, amount := 5, type := TxType.deposit } ∧
      s2.withdrawals = wStore.withdrawals :=
  (deposit_correct wStore 7 5).2.2
    { id := 7, balance := 10, freeze_amount := 0 } (by norm_num) (by rfl)

/-- C7.  `create_withdraw_request` with a positive amount, a strictly
future time and an existing wallet succeeds, creates exactly one pending
`ScheduledWithdrawal` row, and leaves every wallet row (balance and
freeze_amount included) and the transaction ledger unchanged — no balance
check, no money movement. -/
theorem schedule_frame_effect (s : LedgerState) (i : Nat) (a : Int)
    (t now : Nat) (w : Wallet)
    (ha : 0 < a) (ht : now < t) (hw : findWallet s.wallets i = some w) :
    ∃ s2 wr, create_withdraw_request s i a t now = Except.ok (s2, wr) ∧
      s2.wallets = s.wallets ∧
      s2.transactions = s.transactions ∧
      wr.status = WStatus.pending ∧
      wr.amount = a ∧ wr.wallet = w.id ∧ wr.scheduled_for = t ∧
      wr.transaction = none ∧
      s2.withdrawals = s.withdrawals ++ [wr] := by
  have h1 : ¬ a ≤ 0 := by omega
  have h2 : ¬ t ≤ now := by omega
  unfold create_withdraw_request
  rw [if_neg h1, if_neg h2, hw]
  exact ⟨_, _, rfl, rfl, rfl, rfl, rfl, rfl, rfl, rfl, rfl⟩

/-- Witness for C7: on the concrete store, schedule a withdrawal of 1000
from wallet 7 (balance only 10) at time 90 (now = 0) — succeeds with the
wallet row untouched despite the insufficient balance. -/
theorem schedule_frame_effect_witness :
    ∃ s2 wr, create_withdraw_request wStore 7 1000 90 0 = Except.ok (s2, wr) ∧
      s2.wallets = wStore.wallets ∧
      s2.transactions = wStore.transactions ∧
      wr.status = WStatus.pending ∧
      wr.amount = 1000 ∧ wr.wallet = 7 ∧ wr.scheduled_for = 90 ∧
      wr.transaction = none ∧
      s2.withdrawals = wStore.withdrawals ++ [wr] :=
  schedule_frame_effect wStore 7 1000 90 0
    { id := 7, balance := 10, freeze_amount := 0 }
    (by norm_num) (by norm_num) (by rfl)

/-! ### Lookup lemmas for the execution engine's row updates -/

theorem findWithdrawal_save {s : List ScheduledWithdrawal}
    {wd wd2 : ScheduledWithdrawal} (hmem : wd ∈ s) (hid : wd2.id = wd.id) :
    findWithdrawal (saveWithdrawal s wd2) wd.id = some wd2 := by
  obtain ⟨v, hv, hvid⟩ := find?_isSome_of_mem ScheduledWithdrawal.id wd s hmem
  unfold findWithdrawal saveWithdrawal
  rw [find?_map_comm ScheduledWithdrawal.id _
    (fun x => by by_cases hx : x.id = wd2.id <;> simp [hx]) wd.id s]
  rw [hv]
  simp [hvid, hid]

theorem findWallet_debitUpdate (ws : List Wallet) (i j : Nat) (a : Int) :
    findWallet (debitUpdate ws i a) j =
      (findWallet ws j).map (fun w =>
        if w.id = i ∧ a ≤ w.balance then { w with balance := w.balance - a }
        else w) := by
  unfold findWallet debitUpdate
  exact find?_map_comm Wallet.id _
    (fun x => by by_cases hx : x.id = i ∧ a ≤ x.balance <;> simp [hx]) j ws

theorem findWallet_refundUpdate (ws : List Wallet) (i j : Nat) (a : Int) :
    findWallet (refundUpdate ws i a) j =
      (findWallet ws j).map (fun w =>
        if w.id = i then { w with balance := w.balance + a } else w) := by
  unfold findWallet refundUpdate
  exact find?_map_comm Wallet.id _
    (fun x => by by_cases hx : x.id = i <;> simp [hx]) j ws

/-! ### Claim theorems: execution engine, single withdrawal -/

/-- C3 (amended).  When a withdrawal is re-fetched in `processing` status
but no wallet row matches the conditional debit (every row with the
wallet's id has balance < amount), the debit updates zero rows, the
withdrawal is marked `failed` with message
"Insufficient balance at execution time", the wallet rows are all
unchanged, no transaction is created, and the settlement outcome is
never consulted (execution stopped before the settlement call). -/
theorem insufficient_funds_execution (s : LedgerState) (wid : Nat)
    (settle : SettlementOutcome) (wd : ScheduledWithdrawal)
    (hfind : s.withdrawals.find?
      (fun w => decide (w.id = wid ∧ w.status = WStatus.processing)) = some wd)
    (hins : ∀ x ∈ s.wallets, x.id = wd.wallet → x.balance < wd.amount) :
    (process_single_withdrawal s wid settle).wallets = s.wallets ∧
    (process_single_withdrawal s wid settle).transactions = s.transactions ∧
    findWithdrawal (process_single_withdrawal s wid settle).withdrawals wid =
      some { wd with
               status := WStatus.failed,
               error_message := some "Insufficient balance at execution time" } ∧
    (∀ settle2, process_single_withdrawal s wid settle2 =
      process_single_withdrawal s wid settle) := by
  have hwd := List.find?_some hfind
  simp only [decide_eq_true_eq] at hwd
  obtain ⟨hwid, _hstat⟩ := hwd
  subst hwid
  have hmem := List.mem_of_find?_eq_some hfind
  have hcount : debitCount s.wallets wd.wallet wd.amount = 0 := by
    rw [debitCount, List.countP_eq_zero]
    intro x hx
    simp only [decide_eq_true_eq, not_and, not_le]
    exact hins x hx
  have hupd : debitUpdate s.wallets wd.wallet wd.amount = s.wallets := by
    rw [debitUpdate]
    exact map_id_of_countP_eq_zero _ _ hcount
  have hred : ∀ st : SettlementOutcome, process_single_withdrawal s wd.id st =
      { s with
          wallets := s.wallets,
          withdrawals := saveWithdrawal s.withdrawals
            { wd with
                status := WStatus.failed,
                error_message := some "Insufficient balance at execution time" } } := by
    intro st
    unfold process_single_withdrawal
    rw [hfind]
    simp only [hcount, hupd, if_pos]
  refine ⟨by rw [hred], by rw [hred], ?_, fun settle2 => by rw [hred, hred]⟩
  rw [hred]
  exact @findWithdrawal_save s.withdrawals wd
    { wd with
        status := WStatus.failed,
        error_message := some "Insufficient balance at execution time" }
    hmem rfl

/-- A concrete store with a withdrawal already claimed (`processing`):
wallet 2 holds 1500, withdrawal 5 asks for 1000. -/
def procW : Wallet := { id := 2, balance := 1500, freeze_amount := 0 }

def procWd : ScheduledWithdrawal :=
  { id := 5, wallet := 2, amount := 1000, scheduled_for := 60,
    status := WStatus.processing, transaction := none, error_message := none }

def procStore : LedgerState :=
  { wallets := [procW], transactions := [], withdrawals := [procWd],
    nextTxId := 0, nextWId := 6, nextWalletId := 3 }

/-- Same store but the withdrawal asks for 2000 > 1500. -/
def insWd : ScheduledWithdrawal :=
  { id := 5, wallet := 2, amount := 2000, scheduled_for := 60,
    status := WStatus.processing, transaction := none, error_message := none }

def insStore : LedgerState :=
  { wallets := [procW], transactions := [], withdrawals := [insWd],
    nextTxId := 0, nextWId := 6, nextWalletId := 3 }

/-- Witness for C3 (amended) on the concrete store: balance 1500,
withdrawal of 2000 — fails with the capitalised message, wallet intact,
settlement irrelevant. -/
theorem insufficient_funds_execution_witness :
    (process_single_withdrawal insStore 5 (SettlementOutcome.response "success")).wallets =
      insStore.wallets ∧
    (process_single_withdrawal insStore 5 (SettlementOutcome.response "success")).transactions =
      insStore.transactions ∧
    findWithdrawal (process_single_withdrawal insStore 5
        (SettlementOutcome.response "success")).withdrawals 5 =
      some { insWd with
               status := WStatus.failed,
               error_message := some "Insufficient balance at execution time" } ∧
    (∀ settle2, process_single_withdrawal insStore 5 settle2 =
      process_single_withdrawal insStore 5 (SettlementOutcome.response "success")) :=
  insufficient_funds_execution insStore 5 (SettlementOutcome.response "success")
    insWd (by rfl) (by decide)

/-- Counterexample for C3 as written: at the concrete insufficient-funds
input the recorded message is "Insufficient balance at execution time"
(capital I), not the claimed "insufficient balance at execution time". -/
theorem insufficient_message_counterexample :
    ((process_single_withdrawal insStore 5
        (SettlementOutcome.response "success")).withdrawals.map
      (fun x => x.error_message)) =
      [some "Insufficient balance at execution time"] ∧
    "Insufficient balance at execution time" ≠
      "insufficient balance at execution time" :=
  ⟨rfl, by decide⟩

/-- C2.  Compensation: a `processing` withdrawal whose conditional debit
succeeds (the wallet row has balance ≥ amount) and whose settlement
outcome is not a success ends with the wallet row exactly as before the
debit (refund cancels debit), the withdrawal `failed` carrying the
recorded error message, and no transaction created. -/
theorem compensation_on_settlement_failure (s : LedgerState) (wid : Nat)
    (settle : SettlementOutcome) (wd : ScheduledWithdrawal) (w : Wallet)
    (hfind : s.withdrawals.find?
      (fun x => decide (x.id = wid ∧ x.status = WStatus.processing)) = some wd)
    (hw : findWallet s.wallets wd.wallet = some w)
    (hbal : wd.amount ≤ w.balance)
    (hfail : bankSuccess settle = false) :
    findWallet (process_single_withdrawal s wid settle).wallets wd.wallet =
      some w ∧
    (process_single_withdrawal s wid settle).transactions = s.transactions ∧
    ∃ m, settlementErrorMessage settle = some m ∧
      findWithdrawal (process_single_withdrawal s wid settle).withdrawals wid =
        some { wd with status := WStatus.failed, error_message := some m } := by
  have hwd := List.find?_some hfind
  simp only [decide_eq_true_eq] at hwd
  obtain ⟨hwid, _hstat⟩ := hwd
  subst hwid
  have hmem := List.mem_of_find?_eq_some hfind
  have hw2 : s.wallets.find? (fun x => decide (x.id = wd.wallet)) = some w := hw
  have hwidw : w.id = wd.wallet := by
    have := List.find?_some hw2
    simpa using this
  have hcount : debitCount s.wallets wd.wallet wd.amount ≠ 0 := by
    have hpos : 0 < List.countP
        (fun x : Wallet => decide (x.id = wd.wallet ∧ wd.amount ≤ x.balance))
        s.wallets := by
      rw [List.countP_pos_iff]
      exact ⟨w, List.mem_of_find?_eq_some hw2, by simp [hwidw, hbal]⟩
    unfold debitCount
    omega
  have hred : process_single_withdrawal s wd.id settle =
      { s with
          wallets := refundUpdate
            (debitUpdate s.wallets wd.wallet wd.amount) wd.wallet wd.amount,
          withdrawals := saveWithdrawal s.withdrawals
            { wd with
                status := WStatus.failed,
                error_message := settlementErrorMessage settle } } := by
    unfold process_single_withdrawal
    rw [hfind]
    simp [hcount, hfail]
  have hmsg : ∃ m, settlementErrorMessage settle = some m := by
    cases settle with
    | response d =>
      simp only [bankSuccess, decide_eq_false_iff_not] at hfail
      exact ⟨"Bank rejected the request. Response: " ++ d,
        by simp [settlementErrorMessage, hfail]⟩
    | raised m => exact ⟨_, rfl⟩
  obtain ⟨m, hm⟩ := hmsg
  refine ⟨?_, by rw [hred], m, hm, ?_⟩
  · rw [hred]
    show findWallet (refundUpdate
      (debitUpdate s.wallets wd.wallet wd.amount) wd.wallet wd.amount)
      wd.wallet = some w
    rw [findWallet_refundUpdate, findWallet_debitUpdate, hw]
    have hback : w.balance - wd.amount + wd.amount = w.balance := by ring
    simp [hwidw, hbal, hback]
    cases w with
    | mk wi wb wf => simp_all
  · rw [hred]
    show findWithdrawal (saveWithdrawal s.withdrawals
      { wd with
          status := WStatus.failed,
          error_message := settlementErrorMessage settle }) wd.id = _
    rw [hm]
    exact findWithdrawal_save hmem rfl

/-- Witness for C2 on the concrete store: settlement raises "timeout";
the wallet is back at 1500, the withdrawal failed with the recorded
message, no transaction. -/
theorem compensation_witness :
    findWallet (process_single_withdrawal procStore 5
        (SettlementOutcome.raised "timeout")).wallets procWd.wallet =
      some procW ∧
    (process_single_withdrawal procStore 5
        (SettlementOutcome.raised "timeout")).transactions =
      procStore.transactions ∧
    ∃ m, settlementErrorMessage (SettlementOutcome.raised "timeout") = some m ∧
      findWithdrawal (process_single_withdrawal procStore 5
          (SettlementOutcome.raised "timeout")).withdrawals 5 =
        some { procWd with status := WStatus.failed, error_message := some m } :=
  compensation_on_settlement_failure procStore 5
    (SettlementOutcome.raised "timeout") procWd procW
    (by rfl) (by rfl) (by decide) (by rfl)

/-- C4.  Completion: a `processing` withdrawal whose conditional debit
succeeds and whose settlement reports success appends exactly one
withdraw transaction of the withdrawal amount, links it to the
withdrawal, marks it `completed`, and leaves the wallet at its
post-debit balance (strictly lower than before for a positive amount). -/
theorem completion_on_settlement_success (s : LedgerState) (wid : Nat)
    (settle : SettlementOutcome) (wd : ScheduledWithdrawal) (w : Wallet)
    (hfind : s.withdrawals.find?
      (fun x => decide (x.id = wid ∧ x.status = WStatus.processing)) = some wd)
    (hw : findWallet s.wallets wd.wallet = some w)
    (hbal : wd.amount ≤ w.balance)
    (hsucc : bankSuccess settle = true) :
    (process_single_withdrawal s wid settle).transactions =
      s.transactions ++
        [{ id := s.nextTxId, wallet := wd.wallet, amount := wd.amount,
           type := TxType.withdraw }] ∧
    findWithdrawal (process_single_withdrawal s wid settle).withdrawals wid =
      some { wd with
               status := WStatus.completed,
               transaction := some s.nextTxId } ∧
    findWallet (process_single_withdrawal s wid settle).wallets wd.wallet =
      some { w with balance := w.balance - wd.amount } ∧
    (0 < wd.amount → w.balance - wd.amount < w.balance) := by
  have hwd := List.find?_some hfind
  simp only [decide_eq_true_eq] at hwd
  obtain ⟨hwid, _hstat⟩ := hwd
  subst hwid
  have hmem := List.mem_of_find?_eq_some hfind
  have hw2 : s.wallets.find? (fun x => decide (x.id = wd.wallet)) = some w := hw
  have hwidw : w.id = wd.wallet := by
    have := List.find?_some hw2
    simpa using this
  have hcount : debitCount s.wallets wd.wallet wd.amount ≠ 0 := by
    have hpos : 0 < List.countP
        (fun x : Wallet => decide (x.id = wd.wallet ∧ wd.amount ≤ x.balance))
        s.wallets := by
      rw [List.countP_pos_iff]
      exact ⟨w, List.mem_of_find?_eq_some hw2, by simp [hwidw, hbal]⟩
    unfold debitCount
    omega
  have hred : process_single_withdrawal s wd.id settle =
      { s with
          wallets := debitUpdate s.wallets wd.wallet wd.amount,
          transactions := s.transactions ++
            [{ id := s.nextTxId, wallet := wd.wallet,
               amount := wd.amount, type := TxType.withdraw }],
          nextTxId := s.nextTxId + 1,
          withdrawals := saveWithdrawal s.withdrawals
            { wd with
                status := WStatus.completed,
                transaction := some s.nextTxId } } := by
    unfold process_single_withdrawal
    rw [hfind]
    simp [hcount, hsucc]
  refine ⟨by rw [hred], ?_, ?_, fun hpos => by omega⟩
  · rw [hred]
    exact findWithdrawal_save hmem rfl
  · rw [hred]
    show findWallet (debitUpdate s.wallets wd.wallet wd.amount) wd.wallet = _
    rw [findWallet_debitUpdate, hw]
    simp [hwidw, hbal]

/-- Witness for C4 on the concrete store: settlement succeeds; one
withdraw transaction of 1000 appended and linked, wallet at 500. -/
theorem completion_witness :
    (process_single_withdrawal procStore 5
        (SettlementOutcome.response "success")).transactions =
      procStore.transactions ++
        [{ id := 0, wallet := procWd.wallet, amount := procWd.amount,
           type := TxType.withdraw }] ∧
    findWithdrawal (process_single_withdrawal procStore 5
        (SettlementOutcome.response "success")).withdrawals 5 =
      some { procWd with status := WStatus.completed, transaction := some 0 } ∧
    findWallet (process_single_withdrawal procStore 5
        (SettlementOutcome.response "success")).wallets procWd.wallet =
      some { procW with balance := procW.balance - procWd.amount } ∧
    (0 < procWd.amount → procW.balance - procWd.amount < procW.balance) :=
  completion_on_settlement_success procStore 5
    (SettlementOutcome.response "success") procWd procW
    (by rfl) (by rfl) (by decide) (by rfl)

/-! ### State invariants along traces

`Inv` bundles the inductive invariants of the store: balances are
non-negative, withdrawal amounts are positive, only completed
withdrawals hold a transaction link, wallet pks are unique and below the
fresh counter, and money is conserved. -/

def balNonneg (s : LedgerState) : Prop := ∀ w ∈ s.wallets, 0 ≤ w.balance

def amountsPos (s : LedgerState) : Prop := ∀ x ∈ s.withdrawals, 0 < x.amount

def linkOk (s : LedgerState) : Prop :=
  ∀ x ∈ s.withdrawals,
    (x.status = WStatus.completed → x.transaction.isSome) ∧
    (x.status ≠ WStatus.completed → x.transaction = none)

def walletIdsNodup (s : LedgerState) : Prop := (s.wallets.map Wallet.id).Nodup

def walletIdsFresh (s : LedgerState) : Prop :=
  ∀ w ∈ s.wallets, w.id < s.nextWalletId

def Inv (s : LedgerState) : Prop :=
  balNonneg s ∧ amountsPos s ∧ linkOk s ∧ walletIdsNodup s ∧
    walletIdsFresh s ∧ conserved s

theorem map_ids_of_preserve {α : Type} (idf : α → Nat) (g : α → α)
    (hg : ∀ x, idf (g x) = idf x) (ws : List α) :
    (ws.map g).map idf = ws.map idf := by
  rw [List.map_map]
  exact List.map_congr_left (fun x _ => hg x)

theorem debit_sum (i : Nat) (a : Int) : ∀ ws : List Wallet,
    ((debitUpdate ws i a).map (fun w => w.balance)).sum =
      (ws.map (fun w => w.balance)).sum - (debitCount ws i a : Int) * a := by
  intro ws
  induction ws with
  | nil => simp [debitUpdate, debitCount]
  | cons x t ih =>
    by_cases px : x.id = i ∧ a ≤ x.balance
    · simp only [debitUpdate, List.map_cons, if_pos px, List.sum_cons,
        debitCount, List.countP_cons, decide_eq_true_eq, px, and_self,
        if_pos] at ih ⊢
      push_cast
      rw [ih]
      ring_nf
    · simp only [debitUpdate, List.map_cons, if_neg px, List.sum_cons,
        debitCount, List.countP_cons, decide_eq_true_eq, px,
        if_false] at ih ⊢
      rw [ih]
      ring_nf

theorem refund_sum (i : Nat) (a : Int) : ∀ ws : List Wallet,
    ((refundUpdate ws i a).map (fun w => w.balance)).sum =
      (ws.map (fun w => w.balance)).sum +
        (ws.countP (fun w => decide (w.id = i)) : Int) * a := by
  intro ws
  induction ws with
  | nil => simp [refundUpdate]
  | cons x t ih =>
    by_cases px : x.id = i
    · simp only [refundUpdate, List.map_cons, if_pos px, List.sum_cons,
        List.countP_cons, decide_eq_true_eq, px, if_pos] at ih ⊢
      push_cast
      rw [ih]
      ring_nf
    · simp only [refundUpdate, List.map_cons, if_neg px, List.sum_cons,
        List.countP_cons, decide_eq_true_eq, px, if_false] at ih ⊢
      rw [ih]
      ring_nf

theorem save_sum (w2 : Wallet) : ∀ ws : List Wallet,
    (ws.map Wallet.id).Nodup →
    ∀ w, ws.find? (fun x => decide (x.id = w2.id)) = some w →
    ((saveWallet ws w2).map (fun x => x.balance)).sum =
      (ws.map (fun x => x.balance)).sum - w.balance + w2.balance := by
  intro ws
  induction ws with
  | nil => intro _ w h; simp at h
  | cons x t ih =>
    intro hnd w hfind
    simp only [List.map_cons, List.nodup_cons] at hnd
    by_cases hx : x.id = w2.id
    · rw [List.find?_cons_of_pos _ (by simp [hx])] at hfind
      injection hfind with hw
      subst hw
      have ht : saveWallet t w2 = t := by
        rw [saveWallet]
        refine map_id_of_countP_eq_zero _ _ ?_
        rw [List.countP_eq_zero]
        intro y hy
        simp only [decide_eq_true_eq]
        intro hyw
        exact hnd.1 (hx ▸ hyw ▸ List.mem_map_of_mem Wallet.id hy)
      simp only [saveWallet, List.map_cons, if_pos hx] at ht ⊢
      rw [ht]
      simp only [List.sum_cons]
      ring_nf
    · rw [List.find?_cons_of_neg _ (by simp [hx])] at hfind
      simp only [saveWallet, List.map_cons, if_neg hx, List.sum_cons] at ih ⊢
      rw [ih hnd.2 w hfind]
      ring_nf

theorem countP_map_pred {α : Type} (g : α → α) (p : α → Bool)
    (hp : ∀ x, p (g x) = p x) (ws : List α) :
    (ws.map g).countP p = ws.countP p := by
  rw [List.countP_map]
  exact List.countP_congr (fun x _ => by simp [Function.comp, hp x])

theorem mem_map_id_cases {α : Type} (idf : α → Nat) (w2 : α)
    {ws : List α} {y : α}
    (hy : y ∈ ws.map (fun x => if idf x = idf w2 then w2 else x)) :
    y = w2 ∨ y ∈ ws := by
  rcases List.mem_map.mp hy with ⟨x, hx, hgx⟩
  by_cases hid : idf x = idf w2
  · rw [if_pos hid] at hgx
    exact Or.inl hgx.symm
  · rw [if_neg hid] at hgx
    exact Or.inr (hgx ▸ hx)

theorem fresh_map {α : Type} (idf : α → Nat) (g : α → α)
    (hg : ∀ x, idf (g x) = idf x) {ws : List α} {n : Nat}
    (h : ∀ x ∈ ws, idf x < n) : ∀ y ∈ ws.map g, idf y < n := by
  intro y hy
  rcases List.mem_map.mp hy with ⟨x, hx, hgx⟩
  rw [← hgx, hg]
  exact h x hx

theorem balNonneg_debit {ws : List Wallet} {i : Nat} {a : Int}
    (h : ∀ x ∈ ws, 0 ≤ x.balance) :
    ∀ y ∈ debitUpdate ws i a, 0 ≤ y.balance := by
  intro y hy
  rcases List.mem_map.mp hy with ⟨x, hx, hgx⟩
  by_cases px : x.id = i ∧ a ≤ x.balance
  · rw [if_pos px] at hgx
    rw [← hgx]
    have := px.2
    simp only []
    omega
  · rw [if_neg px] at hgx
    exact hgx ▸ h x hx

theorem balNonneg_refund {ws : List Wallet} {i : Nat} {a : Int} (ha : 0 ≤ a)
    (h : ∀ x ∈ ws, 0 ≤ x.balance) :
    ∀ y ∈ refundUpdate ws i a, 0 ≤ y.balance := by
  intro y hy
  rcases List.mem_map.mp hy with ⟨x, hx, hgx⟩
  by_cases px : x.id = i
  · rw [if_pos px] at hgx
    rw [← hgx]
    have := h x hx
    simp only []
    omega
  · rw [if_neg px] at hgx
    exact hgx ▸ h x hx

theorem debit_ids (ws : List Wallet) (i : Nat) (a : Int) :
    (debitUpdate ws i a).map Wallet.id = ws.map Wallet.id :=
  map_ids_of_preserve Wallet.id _
    (fun x => by by_cases px : x.id = i ∧ a ≤ x.balance <;> simp [px]) ws

theorem refund_ids (ws : List Wallet) (i : Nat) (a : Int) :
    (refundUpdate ws i a).map Wallet.id = ws.map Wallet.id :=
  map_ids_of_preserve Wallet.id _
    (fun x => by by_cases px : x.id = i <;> simp [px]) ws

theorem saveWallet_ids (ws : List Wallet) (w2 : Wallet) :
    (saveWallet ws w2).map Wallet.id = ws.map Wallet.id :=
  map_ids_of_preserve Wallet.id _
    (fun x => by by_cases px : x.id = w2.id <;> simp [px]) ws

theorem debitCount_eq_one {ws : List Wallet} {i : Nat} {a : Int}
    (hnd : (ws.map Wallet.id).Nodup)
    (hc0 : debitCount ws i a ≠ 0) :
    debitCount ws i a = 1 ∧ ws.countP (fun w => decide (w.id = i)) = 1 := by
  have hmono : debitCount ws i a ≤ ws.countP (fun w => decide (w.id = i)) := by
    unfold debitCount
    exact List.countP_mono_left (fun x _ hx => by
      simp only [decide_eq_true_eq] at hx ⊢
      exact hx.1)
  have hle := countP_le_one_of_nodup Wallet.id hnd i
  omega

theorem process_single_inv (s : LedgerState) (wid : Nat)
    (settle : SettlementOutcome) (h : Inv s) :
    Inv (process_single_withdrawal s wid settle) := by
  obtain ⟨hbal, hamt, hlink, hnd, hfresh, hcons⟩ := h
  cases hfind : s.withdrawals.find?
      (fun w => decide (w.id = wid ∧ w.status = WStatus.processing)) with
  | none =>
    have hred : process_single_withdrawal s wid settle = s := by
      unfold process_single_withdrawal
      rw [hfind]
    rw [hred]
    exact ⟨hbal, hamt, hlink, hnd, hfresh, hcons⟩
  | some wd =>
    have hwdmem := List.mem_of_find?_eq_some hfind
    have hwdp := List.find?_some hfind
    simp only [decide_eq_true_eq] at hwdp
    obtain ⟨hwid, hstat⟩ := hwdp
    have hwdtx : wd.transaction = none :=
      (hlink wd hwdmem).2 (by rw [hstat]; simp)
    have hamt0 : 0 < wd.amount := hamt wd hwdmem
    by_cases hc0 : debitCount s.wallets wd.wallet wd.amount = 0
    · have hred : process_single_withdrawal s wid settle =
          { s with
              wallets := debitUpdate s.wallets wd.wallet wd.amount,
              withdrawals := saveWithdrawal s.withdrawals
                { wd with
                    status := WStatus.failed,
                    error_message :=
                      some "Insufficient balance at execution time" } } := by
        unfold process_single_withdrawal
        rw [hfind]
        simp [hc0]
      rw [hred]
      refine ⟨balNonneg_debit hbal, ?_, ?_, ?_, ?_, ?_⟩
      · intro y hy
        rcases mem_map_id_cases ScheduledWithdrawal.id _ hy with hy2 | hy2
        · rw [hy2]; exact hamt0
        · exact hamt y hy2
      · intro y hy
        rcases mem_map_id_cases ScheduledWithdrawal.id _ hy with hy2 | hy2
        · subst hy2
          exact ⟨fun hc => (nomatch hc), fun _ => hwdtx⟩
        · exact hlink y hy2
      · show ((debitUpdate s.wallets wd.wallet wd.amount).map Wallet.id).Nodup
        rw [debit_ids]
        exact hnd
      · exact fresh_map Wallet.id _
          (fun x => by by_cases px : x.id = wd.wallet ∧ wd.amount ≤ x.balance <;>
            simp [px]) hfresh
      · show conserved _
        unfold conserved txTotal balanceTotal at hcons ⊢
        simp only []
        rw [debit_sum, hc0]
        push_cast
        simpa using hcons
    · obtain ⟨hc1, hcid⟩ := debitCount_eq_one hnd hc0
      by_cases hbank : bankSuccess settle = true
      · have hred : process_single_withdrawal s wid settle =
            { s with
                wallets := debitUpdate s.wallets wd.wallet wd.amount,
                transactions := s.transactions ++
                  [{ id := s.nextTxId, wallet := wd.wallet,
                     amount := wd.amount, type := TxType.withdraw }],
                nextTxId := s.nextTxId + 1,
                withdrawals := saveWithdrawal s.withdrawals
                  { wd with
                      status := WStatus.completed,
                      transaction := some s.nextTxId } } := by
          unfold process_single_withdrawal
          rw [hfind]
          simp [hc0, hbank]
        rw [hred]
        refine ⟨balNonneg_debit hbal, ?_, ?_, ?_, ?_, ?_⟩
        · intro y hy
          rcases mem_map_id_cases ScheduledWithdrawal.id _ hy with hy2 | hy2
          · rw [hy2]; exact hamt0
          · exact hamt y hy2
        · intro y hy
          rcases mem_map_id_cases ScheduledWithdrawal.id _ hy with hy2 | hy2
          · subst hy2
            exact ⟨fun _ => rfl, fun hc => absurd rfl hc⟩
          · exact hlink y hy2
        · show ((debitUpdate s.wallets wd.wallet wd.amount).map Wallet.id).Nodup
          rw [debit_ids]
          exact hnd
        · exact fresh_map Wallet.id _
            (fun x => by by_cases px : x.id = wd.wallet ∧ wd.amount ≤ x.balance <;>
              simp [px]) hfresh
        · show conserved _
          unfold conserved txTotal balanceTotal at hcons ⊢
          simp only [List.filter_append, List.map_append, List.sum_append]
          rw [debit_sum, hc1]
          have h1 : List.filter (fun t => decide (t.type = TxType.deposit))
              [({ id := s.nextTxId, wallet := wd.wallet, amount := wd.amount,
                  type := TxType.withdraw } : Txn)] = [] := by rfl
          have h2 : List.filter (fun t => decide (t.type = TxType.withdraw))
              [({ id := s.nextTxId, wallet := wd.wallet, amount := wd.amount,
                  type := TxType.withdraw } : Txn)] =
              [{ id := s.nextTxId, wallet := wd.wallet, amount := wd.amount,
                 type := TxType.withdraw }] := by rfl
          rw [h1, h2]
          simp only [List.map_nil, List.sum_nil, List.map_cons, List.sum_cons,
            add_zero]
          push_cast
          rw [← hcons]
          ring_nf
      · have hred : process_single_withdrawal s wid settle =
            { s with
                wallets := refundUpdate
                  (debitUpdate s.wallets wd.wallet wd.amount)
                  wd.wallet wd.amount,
                withdrawals := saveWithdrawal s.withdrawals
                  { wd with
                      status := WStatus.failed,
                      error_message := settlementErrorMessage settle } } := by
          unfold process_single_withdrawal
          rw [hfind]
          simp [hc0, hbank]
        rw [hred]
        refine ⟨balNonneg_refund (le_of_lt hamt0) (balNonneg_debit hbal),
          ?_, ?_, ?_, ?_, ?_⟩
        · intro y hy
          rcases mem_map_id_cases ScheduledWithdrawal.id _ hy with hy2 | hy2
          · rw [hy2]; exact hamt0
          · exact hamt y hy2
        · intro y hy
          rcases mem_map_id_cases ScheduledWithdrawal.id _ hy with hy2 | hy2
          · subst hy2
            exact ⟨fun hc => (nomatch hc), fun _ => hwdtx⟩
          · exact hlink y hy2
        · show ((refundUpdate (debitUpdate s.wallets wd.wallet wd.amount)
            wd.wallet wd.amount).map Wallet.id).Nodup
          rw [refund_ids, debit_ids]
          exact hnd
        · refine fresh_map Wallet.id _
            (fun x => by by_cases px : x.id = wd.wallet <;> simp [px]) ?_
          exact fresh_map Wallet.id _
            (fun x => by by_cases px : x.id = wd.wallet ∧ wd.amount ≤ x.balance <;>
              simp [px]) hfresh
        · show conserved _
          unfold conserved txTotal balanceTotal at hcons ⊢
          simp only []
          rw [refund_sum, debit_sum, hc1]
          have hcid2 : (debitUpdate s.wallets wd.wallet wd.amount).countP
              (fun w => decide (w.id = wd.wallet)) = 1 := by
            unfold debitUpdate
            rw [countP_map_pred
              (fun w : Wallet =>
                if w.id = wd.wallet ∧ wd.amount ≤ w.balance
                then { w with balance := w.balance - wd.amount } else w)
              (fun w : Wallet => decide (w.id = wd.wallet))
              (fun x => by
                by_cases px : x.id = wd.wallet ∧ wd.amount ≤ x.balance <;>
                  simp [px])]
            exact hcid
          rw [hcid2]
          push_cast
          rw [← hcons]
          ring_nf

theorem markProcessing_inv (s : LedgerState) (now : Nat) (h : Inv s) :
    Inv (markProcessing s now) := by
  obtain ⟨hbal, hamt, hlink, hnd, hfresh, hcons⟩ := h
  refine ⟨hbal, ?_, ?_, hnd, hfresh, hcons⟩
  · intro y hy
    rcases List.mem_map.mp hy with ⟨x, hx, hgx⟩
    by_cases px : isDue now x
    · rw [if_pos px] at hgx
      rw [← hgx]
      exact hamt x hx
    · rw [if_neg px] at hgx
      exact hgx ▸ hamt x hx
  · intro y hy
    rcases List.mem_map.mp hy with ⟨x, hx, hgx⟩
    by_cases px : isDue now x
    · rw [if_pos px] at hgx
      have hxtx : x.transaction = none :=
        (hlink x hx).2 (by rw [px.1]; simp)
      rw [← hgx]
      exact ⟨fun hc => (nomatch hc), fun _ => hxtx⟩
    · rw [if_neg px] at hgx
      exact hgx ▸ hlink x hx
  
theorem foldl_process_inv (settle : Nat → SettlementOutcome) :
    ∀ (l : List Nat) (st : LedgerState), Inv st →
      Inv (l.foldl (fun t i => process_single_withdrawal t i (settle i)) st) := by
  intro l
  induction l with
  | nil => intro st h; exact h
  | cons i t ih =>
    intro st h
    exact ih _ (process_single_inv st i (settle i) h)

theorem sweep_inv (s : LedgerState) (now : Nat)
    (settle : Nat → SettlementOutcome) (h : Inv s) :
    Inv (process_scheduled_withdrawals s now settle) := by
  unfold process_scheduled_withdrawals
  by_cases hids : dueIds s now = []
  · rw [if_pos hids]
    exact h
  · rw [if_neg hids]
    exact foldl_process_inv settle _ _ (markProcessing_inv s now h)

theorem deposit_inv (s : LedgerState) (i : Nat) (a : Int) (h : Inv s) :
    Inv (applyOp s (Op.deposit i a)) := by
  obtain ⟨hbal, hamt, hlink, hnd, hfresh, hcons⟩ := h
  by_cases ha : a ≤ 0
  · have hdep : deposit_to_wallet s i a =
        Except.error (ServiceError.validation "Amount must be positive") := by
      unfold deposit_to_wallet
      rw [if_pos ha]
    simp only [applyOp, hdep]
    exact ⟨hbal, hamt, hlink, hnd, hfresh, hcons⟩
  · cases hw : findWallet s.wallets i with
    | none =>
      have hdep : deposit_to_wallet s i a = Except.error ServiceError.notFound := by
        unfold deposit_to_wallet
        rw [if_neg ha, hw]
      simp only [applyOp, hdep]
      exact ⟨hbal, hamt, hlink, hnd, hfresh, hcons⟩
    | some w =>
      have hwmem : w ∈ s.wallets := List.mem_of_find?_eq_some hw
      have hwid : w.id = i := by
        have := List.find?_some hw
        simpa using this
      have hdep : deposit_to_wallet s i a =
          Except.ok ({ s with
              wallets := saveWallet s.wallets { w with balance := w.balance + a },
              transactions := s.transactions ++
                [{ id := s.nextTxId, wallet := w.id, amount := a,
                   type := TxType.deposit }],
              nextTxId := s.nextTxId + 1 },
            { id := s.nextTxId, wallet := w.id, amount := a,
              type := TxType.deposit }) := by
        unfold deposit_to_wallet
        rw [if_neg ha, hw]
      simp only [applyOp, hdep]
      refine ⟨?_, hamt, hlink, ?_, ?_, ?_⟩
      · intro y hy
        rcases mem_map_id_cases Wallet.id _ hy with hy2 | hy2
        · rw [hy2]
          have := hbal w hwmem
          simp only []
          omega
        · exact hbal y hy2
      · show ((saveWallet s.wallets { w with balance := w.balance + a }).map
          Wallet.id).Nodup
        rw [saveWallet_ids]
        exact hnd
      · intro y hy
        rcases mem_map_id_cases Wallet.id _ hy with hy2 | hy2
        · rw [hy2]
          exact hfresh w hwmem
        · exact hfresh y hy2
      · show conserved _
        unfold conserved txTotal balanceTotal at hcons ⊢
        simp only [List.filter_append, List.map_append, List.sum_append]
        have hfind2 : s.wallets.find?
            (fun x => decide (x.id =
              ({ w with balance := w.balance + a } : Wallet).id)) = some w := by
          simpa [hwid] using hw
        rw [save_sum { w with balance := w.balance + a } s.wallets hnd w hfind2]
        have h1 : List.filter (fun t => decide (t.type = TxType.deposit))
            [({ id := s.nextTxId, wallet := w.id, amount := a,
                type := TxType.deposit } : Txn)] =
            [{ id := s.nextTxId, wallet := w.id, amount := a,
               type := TxType.deposit }] := by rfl
        have h2 : List.filter (fun t => decide (t.type = TxType.withdraw))
            [({ id := s.nextTxId, wallet := w.id, amount := a,
                type := TxType.deposit } : Txn)] = [] := by rfl
        rw [h1, h2]
        simp only [List.map_nil, List.sum_nil, List.map_cons, List.sum_cons,
          add_zero]
        rw [← hcons]
        ring_nf

theorem schedule_inv (s : LedgerState) (i : Nat) (a : Int) (t now : Nat)
    (h : Inv s) : Inv (applyOp s (Op.schedule i a t now)) := by
  obtain ⟨hbal, hamt, hlink, hnd, hfresh, hcons⟩ := h
  by_cases ha : a ≤ 0
  · have hreq : create_withdraw_request s i a t now =
        Except.error (ServiceError.validation "Amount must be positive") := by
      unfold create_withdraw_request
      rw [if_pos ha]
    simp only [applyOp, hreq]
    exact ⟨hbal, hamt, hlink, hnd, hfresh, hcons⟩
  · by_cases ht : t ≤ now
    · have hreq : create_withdraw_request s i a t now =
          Except.error (ServiceError.validation
            "Scheduled time must be in the future") := by
        unfold create_withdraw_request
        rw [if_neg ha, if_pos ht]
      simp only [applyOp, hreq]
      exact ⟨hbal, hamt, hlink, hnd, hfresh, hcons⟩
    · cases hw : findWallet s.wallets i with
      | none =>
        have hreq : create_withdraw_request s i a t now =
            Except.error ServiceError.notFound := by
          unfold create_withdraw_request
          rw [if_neg ha, if_neg ht, hw]
        simp only [applyOp, hreq]
        exact ⟨hbal, hamt, hlink, hnd, hfresh, hcons⟩
      | some w =>
        have hreq : create_withdraw_request s i a t now =
            Except.ok ({ s with
                withdrawals := s.withdrawals ++
                  [{ id := s.nextWId, wallet := w.id, amount := a,
                     scheduled_for := t, status := WStatus.pending,
                     transaction := none, error_message := none }],
                nextWId := s.nextWId + 1 },
              { id := s.nextWId, wallet := w.id, amount := a,
                scheduled_for := t, status := WStatus.pending,
                transaction := none, error_message := none }) := by
          unfold create_withdraw_request
          rw [if_neg ha, if_neg ht, hw]
        simp only [applyOp, hreq]
        refine ⟨hbal, ?_, ?_, hnd, hfresh, hcons⟩
        · intro y hy
          rcases List.mem_append.mp hy with hy2 | hy2
          · exact hamt y hy2
          · rcases List.mem_singleton.mp hy2 with rfl
            simp only []
            omega
        · intro y hy
          rcases List.mem_append.mp hy with hy2 | hy2
          · exact hlink y hy2
          · rcases List.mem_singleton.mp hy2 with rfl
            exact ⟨fun hc => (nomatch hc), fun _ => rfl⟩

theorem create_wallet_inv (s : LedgerState) (h : Inv s) :
    Inv (applyOp s Op.createWallet) := by
  obtain ⟨hbal, hamt, hlink, hnd, hfresh, hcons⟩ := h
  simp only [applyOp, create_wallet]
  refine ⟨?_, hamt, hlink, ?_, ?_, ?_⟩
  · intro y hy
    rcases List.mem_append.mp hy with hy2 | hy2
    · exact hbal y hy2
    · rcases List.mem_singleton.mp hy2 with rfl
      simp
  · show ((s.wallets ++
      [({ id := s.nextWalletId, balance := 0, freeze_amount := 0 } : Wallet)]).map
      Wallet.id).Nodup
    rw [List.map_append]
    rw [List.nodup_append]
    refine ⟨hnd, List.nodup_singleton _, ?_⟩
    intro x hx hx2
    rcases List.mem_map.mp hx with ⟨y, hy, hyx⟩
    have hfr := hfresh y hy
    simp only [List.map_cons, List.map_nil, List.mem_singleton] at hx2
    rw [hx2] at hyx
    have hyx2 : y.id = s.nextWalletId := hyx
    omega
  · intro y hy
    rcases List.mem_append.mp hy with hy2 | hy2
    · have := hfresh y hy2
      simp only []
      omega
    · rcases List.mem_singleton.mp hy2 with rfl
      simp
  · show conserved _
    unfold conserved txTotal balanceTotal at hcons ⊢
    simp only [List.map_append, List.sum_append, List.map_cons, List.map_nil,
      List.sum_cons, List.sum_nil, add_zero]
    rw [← hcons]

theorem applyOp_inv (s : LedgerState) (op : Op) (h : Inv s) :
    Inv (applyOp s op) := by
  cases op with
  | createWallet => exact create_wallet_inv s h
  | deposit i a => exact deposit_inv s i a h
  | schedule i a t now => exact schedule_inv s i a t now h
  | sweep now settle => exact sweep_inv s now settle h

theorem initState_inv : Inv initState := by
  refine ⟨?_, ?_, ?_, ?_, ?_, ?_⟩ <;>
    simp [balNonneg, amountsPos, linkOk, walletIdsNodup, walletIdsFresh,
      conserved, txTotal, balanceTotal, initState]

theorem foldl_applyOp_inv : ∀ (ops : List Op) (s : LedgerState), Inv s →
    Inv (ops.foldl applyOp s) := by
  intro ops
  induction ops with
  | nil => intro s h; exact h
  | cons op t ih =>
    intro s h
    exact ih _ (applyOp_inv s op h)

theorem run_inv (ops : List Op) : Inv (run ops) :=
  foldl_applyOp_inv ops initState initState_inv

/-! ### Claim theorems: trace invariants -/

/-- C1.  Money conservation: after any finite trace of operations from
the empty ledger (each operation fully resolved before the next — the
embedding applies deposits, schedules and whole scheduler sweeps
atomically), the sum of all deposit transaction amounts minus the sum of
all withdraw transaction amounts (withdraw transactions exist exactly
for completed withdrawals) equals the sum of all wallet balances. -/
theorem money_conservation (ops : List Op) :
    txTotal TxType.deposit (run ops) - txTotal TxType.withdraw (run ops) =
      balanceTotal (run ops) :=
  (run_inv ops).2.2.2.2.2

/-- C5.  Non-negative balances: after any trace from the empty ledger
every wallet balance is ≥ 0; moreover the conditional debit leaves any
wallet whose balance is below the requested amount untouched (the debit
happens only when balance ≥ amount). -/
theorem balance_nonneg (ops : List Op) :
    (∀ w ∈ (run ops).wallets, 0 ≤ w.balance) ∧
    (∀ (ws : List Wallet) (i : Nat) (a : Int) (w : Wallet),
      w ∈ ws → ¬ a ≤ w.balance → w ∈ debitUpdate ws i a) := by
  constructor
  · exact (run_inv ops).1
  · intro ws i a w hw hlt
    have hgw : (if w.id = i ∧ a ≤ w.balance
        then { w with balance := w.balance - a } else w) = w := by
      rw [if_neg (fun hc => hlt hc.2)]
    exact List.mem_map.mpr ⟨w, hw, hgw⟩

/-- Witness for C5: a wallet with balance 10 is untouched by a debit of
25. -/
theorem balance_nonneg_witness :
    ({ id := 7, balance := 10, freeze_amount := 0 } : Wallet) ∈
      debitUpdate [{ id := 7, balance := 10, freeze_amount := 0 }] 7 25 :=
  (balance_nonneg []).2 [{ id := 7, balance := 10, freeze_amount := 0 }] 7 25
    { id := 7, balance := 10, freeze_amount := 0 }
    (by simp) (by norm_num)

/-- C9.  Transaction-link invariant: after any trace from the empty
ledger, every completed withdrawal holds a transaction reference and
every failed withdrawal holds none. -/
theorem completed_holds_transaction (ops : List Op) :
    ∀ x ∈ (run ops).withdrawals,
      (x.status = WStatus.completed → x.transaction.isSome) ∧
      (x.status = WStatus.failed → x.transaction = none) := by
  intro x hx
  have h := (run_inv ops).2.2.1 x hx
  exact ⟨h.1, fun hf => h.2 (by rw [hf]; simp)⟩

/-- A concrete trace ending with a completed withdrawal. -/
def c9ops : List Op :=
  [Op.createWallet, Op.deposit 0 1500, Op.schedule 0 1000 90 0,
   Op.sweep 100 (fun _ => SettlementOutcome.response "success")]

def c9wd : ScheduledWithdrawal :=
  { id := 0, wallet := 0, amount := 1000, scheduled_for := 90,
    status := WStatus.completed, transaction := some 1, error_message := none }

/-- Witness for C9 on the concrete trace: its completed withdrawal links
transaction 1. -/
theorem completed_holds_transaction_witness :
    (c9wd.status = WStatus.completed → c9wd.transaction.isSome) ∧
    (c9wd.status = WStatus.failed → c9wd.transaction = none) :=
  completed_holds_transaction c9ops c9wd (by decide)

/-! ### Scheduler sweep machinery -/

theorem saveWithdrawal_ids (ws : List ScheduledWithdrawal)
    (w2 : ScheduledWithdrawal) :
    (saveWithdrawal ws w2).map ScheduledWithdrawal.id =
      ws.map ScheduledWithdrawal.id :=
  map_ids_of_preserve ScheduledWithdrawal.id _
    (fun x => by by_cases px : x.id = w2.id <;> simp [px]) ws

theorem process_single_ids (s : LedgerState) (i : Nat)
    (settle : SettlementOutcome) :
    (process_single_withdrawal s i settle).withdrawals.map
        ScheduledWithdrawal.id =
      s.withdrawals.map ScheduledWithdrawal.id := by
  unfold process_single_withdrawal
  split
  · rfl
  · split
    · exact saveWithdrawal_ids _ _
    · split
      · exact saveWithdrawal_ids _ _
      · exact saveWithdrawal_ids _ _

theorem markProcessing_ids (s : LedgerState) (now : Nat) :
    (markProcessing s now).withdrawals.map ScheduledWithdrawal.id =
      s.withdrawals.map ScheduledWithdrawal.id :=
  map_ids_of_preserve ScheduledWithdrawal.id _
    (fun x => by by_cases px : isDue now x <;> simp [px]) s.withdrawals

theorem foldl_process_ids (settle : Nat → SettlementOutcome) :
    ∀ (l : List Nat) (st : LedgerState),
      ((l.foldl (fun t i => process_single_withdrawal t i (settle i))
        st).withdrawals).map ScheduledWithdrawal.id =
        st.withdrawals.map ScheduledWithdrawal.id := by
  intro l
  induction l with
  | nil => intro st; rfl
  | cons i t ih =>
    intro st
    rw [List.foldl_cons, ih, process_single_ids]

theorem sweep_ids (s : LedgerState) (now : Nat)
    (settle : Nat → SettlementOutcome) :
    (process_scheduled_withdrawals s now settle).withdrawals.map
        ScheduledWithdrawal.id =
      s.withdrawals.map ScheduledWithdrawal.id := by
  unfold process_scheduled_withdrawals
  by_cases hids : dueIds s now = []
  · rw [if_pos hids]
  · rw [if_neg hids, foldl_process_ids, markProcessing_ids]

theorem findWithdrawal_save_ne (ws : List ScheduledWithdrawal)
    (w2 : ScheduledWithdrawal) (j : Nat) (hne : w2.id ≠ j) :
    findWithdrawal (saveWithdrawal ws w2) j = findWithdrawal ws j := by
  unfold findWithdrawal saveWithdrawal
  rw [find?_map_comm ScheduledWithdrawal.id _
    (fun x => by by_cases px : x.id = w2.id <;> simp [px]) j ws]
  cases hv : ws.find? (fun x => decide (x.id = j)) with
  | none => rfl
  | some v =>
    have hvid : v.id = j := by simpa using List.find?_some hv
    show some (if v.id = w2.id then w2 else v) = some v
    rw [if_neg (fun hc : v.id = w2.id => hne (hc ▸ hvid))]

theorem process_single_find_ne (s : LedgerState) (i j : Nat)
    (settle : SettlementOutcome) (hne : j ≠ i) :
    findWithdrawal (process_single_withdrawal s i settle).withdrawals j =
      findWithdrawal s.withdrawals j := by
  cases hfind : s.withdrawals.find?
      (fun w => decide (w.id = i ∧ w.status = WStatus.processing)) with
  | none =>
    have hred : process_single_withdrawal s i settle = s := by
      unfold process_single_withdrawal
      rw [hfind]
    rw [hred]
  | some wd =>
    have hwdp := List.find?_some hfind
    simp only [decide_eq_true_eq] at hwdp
    obtain ⟨hwid, _⟩ := hwdp
    unfold process_single_withdrawal
    rw [hfind]
    dsimp only
    split
    · exact findWithdrawal_save_ne _ _ _ (by simp [hwid]; omega)
    · split
      · exact findWithdrawal_save_ne _ _ _ (by simp [hwid]; omega)
      · exact findWithdrawal_save_ne _ _ _ (by simp [hwid]; omega)

theorem find?_and_of_find? {ws : List ScheduledWithdrawal} {i : Nat}
    {wd : ScheduledWithdrawal} (hs : wd.status = WStatus.processing) :
    ws.find? (fun x => decide (x.id = i)) = some wd →
    ws.find? (fun x => decide (x.id = i ∧ x.status = WStatus.processing)) =
      some wd := by
  induction ws with
  | nil => intro h; simp at h
  | cons x t ih =>
    intro h
    by_cases px : x.id = i
    · rw [List.find?_cons_of_pos _ (by simp [px])] at h
      injection h with h
      subst h
      rw [List.find?_cons_of_pos _ (by simp [px, hs])]
    · rw [List.find?_cons_of_neg _ (by simp [px])] at h
      rw [List.find?_cons_of_neg _ (by simp [px])]
      exact ih h

theorem process_single_terminal (s : LedgerState) (i : Nat)
    (settle : SettlementOutcome) (wd : ScheduledWithdrawal)
    (hfindw : findWithdrawal s.withdrawals i = some wd)
    (hstat : wd.status = WStatus.processing) :
    ∃ wd2, findWithdrawal
        (process_single_withdrawal s i settle).withdrawals i = some wd2 ∧
      (wd2.status = WStatus.completed ∨ wd2.status = WStatus.failed) := by
  have hfind : s.withdrawals.find?
      (fun x => decide (x.id = i ∧ x.status = WStatus.processing)) = some wd :=
    find?_and_of_find? hstat hfindw
  have hwid : wd.id = i := by
    have := List.find?_some hfindw
    simpa using this
  have hmem : wd ∈ s.withdrawals := List.mem_of_find?_eq_some hfindw
  subst hwid
  unfold process_single_withdrawal
  rw [hfind]
  dsimp only
  split
  · refine ⟨{ wd with
        status := WStatus.failed,
        error_message := some "Insufficient balance at execution time" },
      ?_, Or.inr rfl⟩
    have := @findWithdrawal_save s.withdrawals wd
      { wd with
          status := WStatus.failed,
          error_message := some "Insufficient balance at execution time" }
      hmem rfl
    exact this
  · split
    · refine ⟨{ wd with
          status := WStatus.completed,
          transaction := some s.nextTxId }, ?_, Or.inl rfl⟩
      have := @findWithdrawal_save s.withdrawals wd
        { wd with
            status := WStatus.completed,
            transaction := some s.nextTxId }
        hmem rfl
      exact this
    · refine ⟨{ wd with
          status := WStatus.failed,
          error_message := settlementErrorMessage settle }, ?_, Or.inr rfl⟩
      have := @findWithdrawal_save s.withdrawals wd
        { wd with
            status := WStatus.failed,
            error_message := settlementErrorMessage settle }
        hmem rfl
      exact this

theorem foldl_find_not_mem (settle : Nat → SettlementOutcome) :
    ∀ (l : List Nat) (st : LedgerState) (j : Nat), j ∉ l →
      findWithdrawal ((l.foldl
          (fun t i => process_single_withdrawal t i (settle i))
        st).withdrawals) j = findWithdrawal st.withdrawals j := by
  intro l
  induction l with
  | nil => intro st j _; rfl
  | cons i t ih =>
    intro st j hj
    rw [List.foldl_cons, ih _ j (fun hc => hj (List.mem_cons_of_mem _ hc)),
      process_single_find_ne st i j (settle i)
        (fun hc => hj (hc ▸ List.mem_cons_self i t))]

theorem foldl_terminal (settle : Nat → SettlementOutcome) :
    ∀ (l : List Nat) (st : LedgerState) (j : Nat) (wd : ScheduledWithdrawal),
      l.Nodup → j ∈ l →
      findWithdrawal st.withdrawals j = some wd →
      wd.status = WStatus.processing →
      ∃ wd2, findWithdrawal ((l.foldl
          (fun t i => process_single_withdrawal t i (settle i))
        st).withdrawals) j = some wd2 ∧
        (wd2.status = WStatus.completed ∨ wd2.status = WStatus.failed) := by
  intro l
  induction l with
  | nil => intro st j wd _ hj; cases hj
  | cons i t ih =>
    intro st j wd hnd hj hfindw hstat
    rw [List.nodup_cons] at hnd
    rw [List.foldl_cons]
    rcases List.mem_cons.mp hj with hji | hjt
    · subst hji
      obtain ⟨wd2, hw2, hterm⟩ :=
        process_single_terminal st j (settle j) wd hfindw hstat
      refine ⟨wd2, ?_, hterm⟩
      rw [foldl_find_not_mem settle t _ j hnd.1, hw2]
    · have hne : j ≠ i := fun hc => hnd.1 (hc ▸ hjt)
      exact ih _ j wd hnd.2 hjt
        (by rw [process_single_find_ne st i j (settle i) hne]; exact hfindw)
        hstat

theorem findWithdrawal_markProcessing (s : LedgerState) (now : Nat) (j : Nat) :
    findWithdrawal (markProcessing s now).withdrawals j =
      (findWithdrawal s.withdrawals j).map
        (fun x => if isDue now x then { x with status := WStatus.processing }
          else x) := by
  unfold markProcessing findWithdrawal
  exact find?_map_comm ScheduledWithdrawal.id _
    (fun x => by by_cases px : isDue now x <;> simp [px]) j s.withdrawals

theorem mem_dueIds (s : LedgerState) (now : Nat) (i : Nat) :
    i ∈ dueIds s now ↔
      ∃ wd ∈ s.withdrawals, wd.id = i ∧ isDue now wd := by
  unfold dueIds
  simp only [List.mem_map, List.mem_filter, decide_eq_true_eq]
  constructor
  · rintro ⟨wd, ⟨hmem, hdue⟩, hid⟩
    exact ⟨wd, hmem, hid, hdue⟩
  · rintro ⟨wd, hmem, hid, hdue⟩
    exact ⟨wd, ⟨hmem, hdue⟩, hid⟩

theorem dueIds_nodup (s : LedgerState) (now : Nat)
    (hnd : (s.withdrawals.map ScheduledWithdrawal.id).Nodup) :
    (dueIds s now).Nodup := by
  unfold dueIds
  exact hnd.sublist ((List.filter_sublist _).map ScheduledWithdrawal.id)

theorem eq_of_mem_id {α : Type} (idf : α → Nat) :
    ∀ {ws : List α}, (ws.map idf).Nodup →
      ∀ {x y : α}, x ∈ ws → y ∈ ws → idf x = idf y → x = y := by
  intro ws
  induction ws with
  | nil => intro _ x y hx; cases hx
  | cons z t ih =>
    intro hnd x y hx hy hxy
    simp only [List.map_cons, List.nodup_cons] at hnd
    rcases List.mem_cons.mp hx with hx | hx <;>
      rcases List.mem_cons.mp hy with hy | hy
    · rw [hx, hy]
    · exfalso
      apply hnd.1
      rw [← hx, hxy]
      exact List.mem_map_of_mem idf hy
    · exfalso
      apply hnd.1
      rw [← hy, ← hxy]
      exact List.mem_map_of_mem idf hx
    · exact ih hnd.2 hx hy hxy

theorem sweep_untouched (s : LedgerState) (now : Nat)
    (settle : Nat → SettlementOutcome)
    (hnd : (s.withdrawals.map ScheduledWithdrawal.id).Nodup)
    (wd : ScheduledWithdrawal) (hmem : wd ∈ s.withdrawals)
    (hnotdue : ¬ isDue now wd) :
    findWithdrawal
      (process_scheduled_withdrawals s now settle).withdrawals wd.id =
      some wd := by
  have hfindw : findWithdrawal s.withdrawals wd.id = some wd :=
    find?_mem_unique ScheduledWithdrawal.id wd s.withdrawals hnd hmem
  unfold process_scheduled_withdrawals
  by_cases hids : dueIds s now = []
  · rw [if_pos hids]
    exact hfindw
  · rw [if_neg hids]
    have hnotin : wd.id ∉ dueIds s now := by
      intro hin
      rcases (mem_dueIds s now wd.id).mp hin with ⟨wd3, hmem3, hid3, hdue3⟩
      exact hnotdue ((eq_of_mem_id ScheduledWithdrawal.id hnd hmem hmem3
        hid3.symm) ▸ hdue3)
    rw [foldl_find_not_mem settle _ _ wd.id hnotin,
      findWithdrawal_markProcessing, hfindw]
    show some (if isDue now wd then { wd with status := WStatus.processing }
      else wd) = some wd
    rw [if_neg hnotdue]

theorem sweep_due_terminal (s : LedgerState) (now : Nat)
    (settle : Nat → SettlementOutcome)
    (hnd : (s.withdrawals.map ScheduledWithdrawal.id).Nodup)
    (wd : ScheduledWithdrawal) (hmem : wd ∈ s.withdrawals)
    (hdue : isDue now wd) :
    ∃ wd2, findWithdrawal
        (process_scheduled_withdrawals s now settle).withdrawals wd.id =
        some wd2 ∧
      (wd2.status = WStatus.completed ∨ wd2.status = WStatus.failed) := by
  have hfindw : findWithdrawal s.withdrawals wd.id = some wd :=
    find?_mem_unique ScheduledWithdrawal.id wd s.withdrawals hnd hmem
  have hin : wd.id ∈ dueIds s now :=
    (mem_dueIds s now wd.id).mpr ⟨wd, hmem, rfl, hdue⟩
  have hne : dueIds s now ≠ [] := List.ne_nil_of_mem hin
  unfold process_scheduled_withdrawals
  rw [if_neg hne]
  have hmark : findWithdrawal (markProcessing s now).withdrawals wd.id =
      some { wd with status := WStatus.processing } := by
    rw [findWithdrawal_markProcessing, hfindw]
    show some (if isDue now wd then { wd with status := WStatus.processing }
      else wd) = some { wd with status := WStatus.processing }
    rw [if_pos hdue]
  exact foldl_terminal settle (dueIds s now) (markProcessing s now) wd.id
    { wd with status := WStatus.processing }
    (dueIds_nodup s now hnd) hin hmark rfl

/-! ### Claim theorems: scheduler -/

/-- C8.  Scheduler sweep: the claimed ids are exactly the ids of pending
withdrawals whose `scheduled_for` lies in the closed window
`[floorToMinute now, floorToMinute now + 60]`; with no due rows the run
returns the store unchanged; every due pending withdrawal is claimed
(transitioned to `processing` in the single bulk update of
`markProcessing`, before any execution) and is then driven by the
sequential per-id execution loop to a terminal `completed` or `failed`
status whatever the settlement outcomes are (failure of one id cannot
abort another); withdrawals that are not due pending rows are left
exactly as they were. -/
theorem scheduler_sweep (s : LedgerState) (now : Nat)
    (settle : Nat → SettlementOutcome)
    (hnd : (s.withdrawals.map ScheduledWithdrawal.id).Nodup) :
    (∀ i, i ∈ dueIds s now ↔ ∃ wd ∈ s.withdrawals, wd.id = i ∧
        wd.status = WStatus.pending ∧
        floorToMinute now ≤ wd.scheduled_for ∧
        wd.scheduled_for ≤ floorToMinute now + 60) ∧
    (dueIds s now = [] → process_scheduled_withdrawals s now settle = s) ∧
    (∀ wd ∈ s.withdrawals, isDue now wd →
      ∃ wd2, findWithdrawal
          (process_scheduled_withdrawals s now settle).withdrawals wd.id =
          some wd2 ∧
        (wd2.status = WStatus.completed ∨ wd2.status = WStatus.failed)) ∧
    (∀ wd ∈ s.withdrawals, ¬ isDue now wd →
      findWithdrawal
        (process_scheduled_withdrawals s now settle).withdrawals wd.id =
        some wd) := by
  refine ⟨?_, ?_, ?_, ?_⟩
  · intro i
    rw [mem_dueIds]
    constructor
    · rintro ⟨wd, hmem, hid, hdue⟩
      exact ⟨wd, hmem, hid, hdue.1, hdue.2.1, hdue.2.2⟩
    · rintro ⟨wd, hmem, hid, h1, h2, h3⟩
      exact ⟨wd, hmem, hid, h1, h2, h3⟩
  · intro h
    unfold process_scheduled_withdrawals
    rw [if_pos h]
  · exact fun wd hmem hdue => sweep_due_terminal s now settle hnd wd hmem hdue
  · exact fun wd hmem hnotdue => sweep_untouched s now settle hnd wd hmem hnotdue

/-- A concrete store for the scheduler witnesses: wallet 2 with 1500,
one pending withdrawal of 1000 scheduled for second 65. -/
def c8wd : ScheduledWithdrawal :=
  { id := 9, wallet := 2, amount := 1000, scheduled_for := 65,
    status := WStatus.pending, transaction := none, error_message := none }

def c8s : LedgerState :=
  { wallets := [procW], transactions := [], withdrawals := [c8wd],
    nextTxId := 0, nextWId := 10, nextWalletId := 3 }

def c8settle : Nat → SettlementOutcome :=
  fun _ => SettlementOutcome.response "success"

/-- Witness for C8 at the concrete store, swept at second 70 (window
[60, 120], so withdrawal 9 is due). -/
theorem scheduler_sweep_witness :
    (∀ i, i ∈ dueIds c8s 70 ↔ ∃ wd ∈ c8s.withdrawals, wd.id = i ∧
        wd.status = WStatus.pending ∧
        floorToMinute 70 ≤ wd.scheduled_for ∧
        wd.scheduled_for ≤ floorToMinute 70 + 60) ∧
    (dueIds c8s 70 = [] → process_scheduled_withdrawals c8s 70 c8settle = c8s) ∧
    (∀ wd ∈ c8s.withdrawals, isDue 70 wd →
      ∃ wd2, findWithdrawal
          (process_scheduled_withdrawals c8s 70 c8settle).withdrawals wd.id =
          some wd2 ∧
        (wd2.status = WStatus.completed ∨ wd2.status = WStatus.failed)) ∧
    (∀ wd ∈ c8s.withdrawals, ¬ isDue 70 wd →
      findWithdrawal
        (process_scheduled_withdrawals c8s 70 c8settle).withdrawals wd.id =
        some wd) :=
  scheduler_sweep c8s 70 c8settle (by decide)

/-- C10.  A pending withdrawal whose `scheduled_for` is strictly before
the current minute window is never selected by a sweep, and any finite
sequence of sweeps that all run after its minute has passed leaves it
pending (hence never executed) forever. -/
theorem stale_pending_never_claimed (s : LedgerState)
    (hnd : (s.withdrawals.map ScheduledWithdrawal.id).Nodup)
    (wd : ScheduledWithdrawal) (hmem : wd ∈ s.withdrawals)
    (_hp : wd.status = WStatus.pending) :
    (∀ now, wd.scheduled_for < floorToMinute now → wd.id ∉ dueIds s now) ∧
    (∀ runs : List (Nat × (Nat → SettlementOutcome)),
      (∀ r ∈ runs, wd.scheduled_for < floorToMinute r.1) →
      findWithdrawal
        ((runs.foldl (fun st r => process_scheduled_withdrawals st r.1 r.2)
          s).withdrawals) wd.id = some wd) := by
  have hnotdue : ∀ now, wd.scheduled_for < floorToMinute now →
      ¬ isDue now wd := by
    intro now hlt hdue
    have := hdue.2.1
    omega
  constructor
  · intro now hlt hin
    rcases (mem_dueIds s now wd.id).mp hin with ⟨wd3, hmem3, hid3, hdue3⟩
    have hwd3 : wd3 = wd := eq_of_mem_id ScheduledWithdrawal.id hnd hmem3 hmem hid3
    exact hnotdue now hlt (hwd3 ▸ hdue3)
  · suffices h : ∀ runs : List (Nat × (Nat → SettlementOutcome)),
        (∀ r ∈ runs, wd.scheduled_for < floorToMinute r.1) →
        ∀ st : LedgerState,
          st.withdrawals.map ScheduledWithdrawal.id =
            s.withdrawals.map ScheduledWithdrawal.id →
          findWithdrawal st.withdrawals wd.id = some wd →
          findWithdrawal ((runs.foldl
              (fun t r => process_scheduled_withdrawals t r.1 r.2)
            st).withdrawals) wd.id = some wd by
      intro runs hstale
      exact h runs hstale s rfl
        (find?_mem_unique ScheduledWithdrawal.id wd s.withdrawals hnd hmem)
    intro runs
    induction runs with
    | nil => intro _ st _ hfind; exact hfind
    | cons r t ih =>
      intro hstale st hids hfind
      rw [List.foldl_cons]
      have hmem2 : wd ∈ st.withdrawals := List.mem_of_find?_eq_some hfind
      have hnd2 : (st.withdrawals.map ScheduledWithdrawal.id).Nodup := by
        rw [hids]; exact hnd
      have hnot : ¬ isDue r.1 wd :=
        hnotdue r.1 (hstale r (List.mem_cons_self r t))
      apply ih (fun r2 hr2 => hstale r2 (List.mem_cons_of_mem r hr2))
      · rw [sweep_ids]; exact hids
      · exact sweep_untouched st r.1 r.2 hnd2 wd hmem2 hnot

/-- Witness for C10: withdrawal 9 (due second 65) with a sweep only at
second 200 (window [180, 240]) stays pending unchanged and its id is not
in the due set. -/
theorem stale_pending_witness :
    c8wd.id ∉ dueIds c8s 200 ∧
    findWithdrawal
      (([((200 : Nat), c8settle)].foldl
          (fun st r => process_scheduled_withdrawals st r.1 r.2)
        c8s).withdrawals) c8wd.id = some c8wd :=
  ⟨(stale_pending_never_claimed c8s (by decide) c8wd (by decide) (by rfl)).1
      200 (by decide),
   (stale_pending_never_claimed c8s (by decide) c8wd (by decide) (by rfl)).2
      [((200 : Nat), c8settle)]
      (by
        intro r hr
        rcases List.mem_singleton.mp hr with rfl
        decide)⟩

end WalletApp
